import Mathlib

set_option maxHeartbeats 1000000
set_option maxRecDepth 16384

/-!
Shallow embedding of `esp_flash_tool.py`, a Tk GUI around esptool with

* `LineBufferedQueueWriter` — a line-buffering output sink feeding a queue,
* `run_esptool_in_process`  — the in-process tool runner,
* a serial-monitor reader thread with raw and timestamped display modes,
* `EspFlashGUI` — the controller owning the session flags and widget states.

Python `str` values are modelled as `List Char`; queue messages as
kind/payload pairs; the controller as a deterministic step function over a
record of the session flags, driven by user clicks, thread exits and queue
drains.
-/

/-- A queue message `(kind, payload)`; the kinds used by the source are
`"OUT"`, `"ERR"`, `"DONE"` and `"MON_DONE"` (the tuples put on `log_q`). -/
abbrev Msg := String × List Char

/-- Character map of Python `s.replace("\r", "\n")` (used at source line 85
and in the timestamped monitor branch at line 451). -/
def crRepl (c : Char) : Char := if c = '\r' then '\n' else c

/-- Concatenation of the payloads of a list of messages. -/
def payloadConcat (ms : List Msg) : List Char := (ms.map Prod.snd).flatten

theorem payloadConcat_cons (m : Msg) (ms : List Msg) :
    payloadConcat (m :: ms) = m.2 ++ payloadConcat ms := by
  simp [payloadConcat]

theorem payloadConcat_append (a b : List Msg) :
    payloadConcat (a ++ b) = payloadConcat a ++ payloadConcat b := by
  simp [payloadConcat]

/-- The emission loop of `LineBufferedQueueWriter.write` (source lines 90-92):
`while "\n" in buf: line, buf = buf.split("\n", 1); q.put((kind, line+"\n"))`,
written as a single left-to-right scan in which `cur` is the portion of the
current line consumed so far. -/
def emitLinesAux (k : String) (cur : List Char) : List Char → List Msg × List Char
  | [] => ([], cur)
  | c :: cs =>
    if c = '\n' then
      let r := emitLinesAux k [] cs
      ((k, cur ++ ['\n']) :: r.1, r.2)
    else
      emitLinesAux k (cur ++ [c]) cs

/-- `LineBufferedQueueWriter.write` (source lines 80-94): an empty chunk is
ignored; otherwise every carriage return is replaced by a newline, the chunk
is appended to the internal buffer, and every complete line is emitted with
its newline.  Returns the emitted messages and the new buffer. -/
def sinkWrite (k : String) (buf chunk : List Char) : List Msg × List Char :=
  if chunk = [] then ([], buf)
  else emitLinesAux k [] (buf ++ chunk.map crRepl)

/-- `LineBufferedQueueWriter.flush` (source lines 96-100): emit the remaining
partial line, if any, and clear the buffer. -/
def sinkFlush (k : String) (buf : List Char) : List Msg × List Char :=
  if buf = [] then ([], buf) else ([(k, buf)], [])

/-- A finite sequence of `write` calls against a single sink, starting from an
empty buffer, accumulating all emitted messages in order. -/
def sinkWriteMany (k : String) (chunks : List (List Char)) : List Msg × List Char :=
  chunks.foldl
    (fun acc c => (acc.1 ++ (sinkWrite k acc.2 c).1, (sinkWrite k acc.2 c).2))
    ([], [])

theorem emitLinesAux_concat (k : String) :
    ∀ (l cur : List Char),
      payloadConcat (emitLinesAux k cur l).1 ++ (emitLinesAux k cur l).2 = cur ++ l := by
  intro l
  induction l with
  | nil => intro cur; simp [emitLinesAux, payloadConcat]
  | cons c cs ih =>
    intro cur
    by_cases h : c = '\n'
    · subst h
      have hstep : emitLinesAux k cur ('\n' :: cs)
          = ((k, cur ++ ['\n']) :: (emitLinesAux k [] cs).1, (emitLinesAux k [] cs).2) := by
        simp [emitLinesAux]
      rw [hstep, payloadConcat_cons]
      rw [List.append_assoc, ih []]
      simp
    · simp only [emitLinesAux, if_neg h]
      rw [ih (cur ++ [c])]
      simp

theorem sinkWrite_concat (k : String) (buf chunk : List Char) :
    payloadConcat (sinkWrite k buf chunk).1 ++ (sinkWrite k buf chunk).2
      = buf ++ chunk.map crRepl := by
  by_cases h : chunk = []
  · subst h; simp [sinkWrite, payloadConcat]
  · simp only [sinkWrite, if_neg h]
    exact (emitLinesAux_concat k (buf ++ chunk.map crRepl) []).trans (by simp)

theorem sinkWriteMany_concat (k : String) (chunks : List (List Char)) :
    payloadConcat (sinkWriteMany k chunks).1 ++ (sinkWriteMany k chunks).2
      = (chunks.flatten).map crRepl := by
  suffices h : ∀ (cs : List (List Char)) (ms0 : List Msg) (b0 : List Char),
      payloadConcat (cs.foldl
          (fun acc c => (acc.1 ++ (sinkWrite k acc.2 c).1, (sinkWrite k acc.2 c).2))
          (ms0, b0)).1
        ++ (cs.foldl
          (fun acc c => (acc.1 ++ (sinkWrite k acc.2 c).1, (sinkWrite k acc.2 c).2))
          (ms0, b0)).2
        = payloadConcat ms0 ++ b0 ++ (cs.flatten).map crRepl by
    have h2 := h chunks [] []
    simpa [sinkWriteMany, payloadConcat] using h2
  intro cs
  induction cs with
  | nil => intro ms0 b0; simp
  | cons c cs ih =>
    intro ms0 b0
    simp only [List.foldl_cons]
    rw [ih]
    have hw := sinkWrite_concat k b0 c
    rw [payloadConcat_append]
    simp only [List.flatten_cons, List.map_append, List.append_assoc]
    rw [← List.append_assoc (payloadConcat (sinkWrite k b0 c).1), hw]
    simp [List.append_assoc]

/-- C2: for every finite sequence of chunks written to a single
line-buffering output sink followed by one flush, the concatenation of the
payloads of all emitted messages (each complete line with its newline, plus
the final flushed remainder) equals the concatenation of the input chunks
with every carriage return replaced by a newline. -/
theorem c2_sink_concat (k : String) (chunks : List (List Char)) :
    payloadConcat ((sinkWriteMany k chunks).1
        ++ (sinkFlush k (sinkWriteMany k chunks).2).1)
      = (chunks.flatten).map crRepl := by
  have h := sinkWriteMany_concat k chunks
  by_cases hb : (sinkWriteMany k chunks).2 = []
  · rw [hb] at h
    simp only [sinkFlush, if_pos hb]
    simpa using h
  · simp only [sinkFlush, if_neg hb, payloadConcat_append, payloadConcat_cons]
    simpa [payloadConcat] using h

/-- A write performed by the tool against one of the two redirected streams. -/
inductive Wev
  | out (s : List Char)
  | err (s : List Char)
deriving DecidableEq

/-- How the in-process esptool invocation terminates: it returns normally, it
raises `SystemExit` (carrying an integer code or `None`), or it raises some
other exception with a message (source lines 121-127). -/
inductive ToolOutcome
  | exitNormal
  | sysExit (code : Option Int)
  | exc (msg : List Char)
deriving DecidableEq

/-- One run of the external tool: the chunks it writes to stdout/stderr, in
order, and the way it terminates. -/
structure ToolRun where
  writes : List Wev
  outcome : ToolOutcome
deriving DecidableEq

/-- The process-wide mutable state overridden by `run_esptool_in_process`:
`sys.argv` and the current working directory. -/
structure ProcState where
  argv : List String
  cwd : String
deriving DecidableEq

/-- Streaming of the tool's writes through the two line-buffering sinks
`qout` (kind "OUT") and `qerr` (kind "ERR") (source lines 111-119): returns
the messages emitted to the queue in order together with the final buffer of
each sink. -/
def runWrites : List Wev → List Char → List Char → List Msg × List Char × List Char
  | [], bo, be => ([], bo, be)
  | Wev.out s :: rest, bo, be =>
    let w := sinkWrite "OUT" bo s
    let r := runWrites rest w.2 be
    (w.1 ++ r.1, r.2.1, r.2.2)
  | Wev.err s :: rest, bo, be =>
    let w := sinkWrite "ERR" be s
    let r := runWrites rest bo w.2
    (w.1 ++ r.1, r.2.1, r.2.2)

/-- Messages posted by the `except` clauses of `run_esptool_in_process`
(source lines 121-127): a non-zero integer `SystemExit` code is reported as
an error-kind message (a non-integer code is treated as 0), and any other
exception is reported as an error-kind message with its text. -/
def outcomeMsgs : ToolOutcome → List Msg
  | ToolOutcome.exitNormal => []
  | ToolOutcome.sysExit c =>
    if c.getD 0 ≠ 0 then
      [("ERR", ("\n[esptool exited with code " ++ toString (c.getD 0) ++ "]\n").data)]
    else []
  | ToolOutcome.exc m => [("ERR", "\n[Exception] ".data ++ m ++ "\n".data)]

/-- `run_esptool_in_process` (source lines 103-138): saves `sys.argv` and the
working directory, overrides both with the requested values, streams the
tool's output through the two sinks, reports the outcome, and in the
`finally` block flushes both sinks, restores `sys.argv` and the working
directory, and posts the `("DONE", "")` marker last.  Returns the final
process state, the queue messages in order, and the final sink buffers. -/
def runEsptoolInProcess (argv : List String) (cwd : String) (ps : ProcState)
    (r : ToolRun) : ProcState × List Msg × List Char × List Char :=
  let oldArgv := ps.argv
  let oldCwd := ps.cwd
  let ps1 : ProcState := { argv := argv, cwd := cwd }
  let stream := runWrites r.writes [] []
  let om := outcomeMsgs r.outcome
  let fo := sinkFlush "OUT" stream.2.1
  let fe := sinkFlush "ERR" stream.2.2
  let ps2 : ProcState := { ps1 with argv := oldArgv }
  let ps3 : ProcState := { ps2 with cwd := oldCwd }
  (ps3, stream.1 ++ om ++ fo.1 ++ fe.1 ++ [("DONE", [])], fo.2, fe.2)

theorem emitLinesAux_kinds (k : String) :
    ∀ (l cur : List Char) (m : Msg), m ∈ (emitLinesAux k cur l).1 → m.1 = k := by
  intro l
  induction l with
  | nil => intro cur m hm; simp [emitLinesAux] at hm
  | cons c cs ih =>
    intro cur m hm
    by_cases h : c = '\n'
    · subst h
      have hstep : emitLinesAux k cur ('\n' :: cs)
          = ((k, cur ++ ['\n']) :: (emitLinesAux k [] cs).1, (emitLinesAux k [] cs).2) := by
        simp [emitLinesAux]
      rw [hstep] at hm
      rcases List.mem_cons.mp hm with h1 | h1
      · rw [h1]
      · exact ih [] m h1
    · simp only [emitLinesAux, if_neg h] at hm
      exact ih (cur ++ [c]) m hm

theorem sinkWrite_kinds (k : String) (buf chunk : List Char) (m : Msg)
    (hm : m ∈ (sinkWrite k buf chunk).1) : m.1 = k := by
  by_cases h : chunk = []
  · subst h; simp [sinkWrite] at hm
  · simp only [sinkWrite, if_neg h] at hm
    exact emitLinesAux_kinds k (buf ++ chunk.map crRepl) [] m hm

theorem sinkFlush_kinds (k : String) (buf : List Char) (m : Msg)
    (hm : m ∈ (sinkFlush k buf).1) : m.1 = k := by
  by_cases h : buf = []
  · simp [sinkFlush, h] at hm
  · simp only [sinkFlush, if_neg h, List.mem_singleton] at hm
    rw [hm]

theorem sinkFlush_buf (k : String) (buf : List Char) : (sinkFlush k buf).2 = [] := by
  by_cases h : buf = [] <;> simp [sinkFlush, h]

theorem runWrites_kinds :
    ∀ (w : List Wev) (bo be : List Char) (m : Msg),
      m ∈ (runWrites w bo be).1 → m.1 = "OUT" ∨ m.1 = "ERR" := by
  intro w
  induction w with
  | nil => intro bo be m hm; simp [runWrites] at hm
  | cons e rest ih =>
    intro bo be m hm
    cases e with
    | out s =>
      simp only [runWrites, List.mem_append] at hm
      rcases hm with h1 | h1
      · exact Or.inl (sinkWrite_kinds "OUT" bo s m h1)
      · exact ih _ _ m h1
    | err s =>
      simp only [runWrites, List.mem_append] at hm
      rcases hm with h1 | h1
      · exact Or.inr (sinkWrite_kinds "ERR" be s m h1)
      · exact ih _ _ m h1

theorem outcomeMsgs_kinds (o : ToolOutcome) (m : Msg)
    (hm : m ∈ outcomeMsgs o) : m.1 = "ERR" := by
  cases o with
  | exitNormal => simp [outcomeMsgs] at hm
  | sysExit c =>
    simp only [outcomeMsgs] at hm
    split at hm
    · rw [List.mem_singleton.mp hm]
    · simp at hm
  | exc s => rw [List.mem_singleton.mp hm]

/-- C3: every run of the tool runner — clean exit, non-zero exit, or uncaught
failure — flushes both sinks (their final buffers are empty) and posts
exactly one `("DONE", "")` message, which is the last message of the run. -/
theorem c3_done_posted_last (argv : List String) (cwd : String) (ps : ProcState)
    (r : ToolRun) :
    ∃ pre : List Msg,
      (runEsptoolInProcess argv cwd ps r).2.1 = pre ++ [("DONE", [])]
        ∧ (∀ m ∈ pre, m.1 ≠ "DONE")
        ∧ (runEsptoolInProcess argv cwd ps r).2.2.1 = []
        ∧ (runEsptoolInProcess argv cwd ps r).2.2.2 = [] := by
  refine ⟨(runWrites r.writes [] []).1 ++ outcomeMsgs r.outcome
      ++ (sinkFlush "OUT" (runWrites r.writes [] []).2.1).1
      ++ (sinkFlush "ERR" (runWrites r.writes [] []).2.2).1, ?_, ?_, ?_, ?_⟩
  · simp [runEsptoolInProcess]
  · intro m hm
    simp only [List.mem_append] at hm
    rcases hm with ((h1 | h1) | h1) | h1
    · rcases runWrites_kinds r.writes [] [] m h1 with h2 | h2 <;> simp [h2]
    · have h2 := outcomeMsgs_kinds r.outcome m h1; simp [h2]
    · have h2 := sinkFlush_kinds "OUT" _ m h1; simp [h2]
    · have h2 := sinkFlush_kinds "ERR" _ m h1; simp [h2]
  · simpa [runEsptoolInProcess] using sinkFlush_buf "OUT" (runWrites r.writes [] []).2.1
  · simpa [runEsptoolInProcess] using sinkFlush_buf "ERR" (runWrites r.writes [] []).2.2

/-- C9: on every exit path of the tool runner (clean exit, non-zero exit or
exception), the process-wide argument vector and working directory are
restored to the exact values they held before the run began. -/
theorem c9_proc_state_restored (argv : List String) (cwd : String)
    (ps : ProcState) (r : ToolRun) :
    (runEsptoolInProcess argv cwd ps r).1 = ps := rfl

/-- C8: termination handling of the tool runner.  A `SystemExit` with a
non-zero integer code is reported in an error-kind message naming that code;
a `SystemExit` with code `None` or 0, like a normal return, produces exactly
the streamed output (with trailing flushes) followed by the done marker and
nothing else; any other exception is caught and reported in an error-kind
message carrying its description (the run is a total function, so the
failure never propagates). -/
theorem c8_exit_code_reporting :
    (∀ (argv : List String) (cwd : String) (ps : ProcState) (w : List Wev) (c : Int),
        c ≠ 0 →
        ("ERR", ("\n[esptool exited with code " ++ toString c ++ "]\n").data)
          ∈ (runEsptoolInProcess argv cwd ps ⟨w, ToolOutcome.sysExit (some c)⟩).2.1)
    ∧ (∀ (argv : List String) (cwd : String) (ps : ProcState) (w : List Wev),
        (runEsptoolInProcess argv cwd ps ⟨w, ToolOutcome.sysExit none⟩).2.1
          = (runEsptoolInProcess argv cwd ps ⟨w, ToolOutcome.exitNormal⟩).2.1)
    ∧ (∀ (argv : List String) (cwd : String) (ps : ProcState) (w : List Wev),
        (runEsptoolInProcess argv cwd ps ⟨w, ToolOutcome.sysExit (some 0)⟩).2.1
          = (runEsptoolInProcess argv cwd ps ⟨w, ToolOutcome.exitNormal⟩).2.1)
    ∧ (∀ (argv : List String) (cwd : String) (ps : ProcState) (w : List Wev),
        (runEsptoolInProcess argv cwd ps ⟨w, ToolOutcome.exitNormal⟩).2.1
          = (runWrites w [] []).1
            ++ (sinkFlush "OUT" (runWrites w [] []).2.1).1
            ++ (sinkFlush "ERR" (runWrites w [] []).2.2).1
            ++ [("DONE", [])])
    ∧ (∀ (argv : List String) (cwd : String) (ps : ProcState) (w : List Wev)
          (m : List Char),
        ("ERR", "\n[Exception] ".data ++ m ++ "\n".data)
          ∈ (runEsptoolInProcess argv cwd ps ⟨w, ToolOutcome.exc m⟩).2.1) := by
  refine ⟨?_, ?_, ?_, ?_, ?_⟩
  · intro argv cwd ps w c hc
    simp [runEsptoolInProcess, outcomeMsgs, hc]
  · intro argv cwd ps w
    simp [runEsptoolInProcess, outcomeMsgs]
  · intro argv cwd ps w
    simp [runEsptoolInProcess, outcomeMsgs]
  · intro argv cwd ps w
    simp [runEsptoolInProcess, outcomeMsgs]
  · intro argv cwd ps w m
    simp [runEsptoolInProcess, outcomeMsgs]

/-- Witness for the exit-code reporting theorem at a concrete run: an empty
write stream terminated by `SystemExit(2)` posts the error message naming
code 2. -/
theorem c8_exit_code_reporting_witness :
    ("ERR", ("\n[esptool exited with code " ++ toString (2 : Int) ++ "]\n").data)
      ∈ (runEsptoolInProcess ["esptool"] "/" ⟨["gui"], "/home"⟩
          ⟨[], ToolOutcome.sysExit (some 2)⟩).2.1 :=
  c8_exit_code_reporting.1 ["esptool"] "/" ⟨["gui"], "/home"⟩ [] 2 (by decide)

/-- Python `txt.replace("\r\n", "\n")` (source line 440): left-to-right,
non-overlapping replacement of every CRLF pair by a single newline. -/
def replCRLF : List Char → List Char
  | [] => []
  | '\r' :: '\n' :: rest => '\n' :: replCRLF rest
  | c :: rest => c :: replCRLF rest

/-- A `datetime.now()` value, restricted to the fields `_ts_prefix` reads. -/
structure PyDateTime where
  year : Nat
  month : Nat
  day : Nat
  hour : Nat
  minute : Nat
  second : Nat
  microsecond : Nat

/-- Zero-padding of a number to a field width, as `strftime` fields and the
`:03d` format specifier produce it. -/
def padNum (w n : Nat) : String :=
  String.mk (List.replicate (w - (toString n).length) '0') ++ toString n

/-- `EspFlashGUI._ts_prefix` (source lines 395-398): the timestamp marker
`[YYYY-MM-DD HH:MM:SS.mmm] `, milliseconds truncated from microseconds. -/
def tsMark (t : PyDateTime) : List Char :=
  ("[" ++ padNum 4 t.year ++ "-" ++ padNum 2 t.month ++ "-" ++ padNum 2 t.day
    ++ " " ++ padNum 2 t.hour ++ ":" ++ padNum 2 t.minute ++ ":" ++ padNum 2 t.second
    ++ "." ++ padNum 3 (t.microsecond / 1000) ++ "] ").data

/-- The line-extraction loop of the timestamped monitor branch (source lines
453-465): `while "\n" in buf: line, buf = buf.split("\n", 1)` with the
blank-line policy of the source — a truly empty line at end of buffer is
suppressed, a genuine blank line posts a bare newline, and a non-empty line
is posted with the timestamp marker `ts` and a newline.  `cur` is the
portion of the current line consumed so far by the scan. -/
def monExtractTs (ts : List Char) (cur : List Char) : List Char → List Msg × List Char
  | [] => ([], cur)
  | c :: cs =>
    if c = '\n' then
      if cur = [] ∧ cs = [] then ([], [])
      else if cur = [] then
        let r := monExtractTs ts [] cs
        (("OUT", ['\n']) :: r.1, r.2)
      else
        let r := monExtractTs ts [] cs
        (("OUT", ts ++ cur ++ ['\n']) :: r.1, r.2)
    else
      monExtractTs ts (cur ++ [c]) cs

/-- Normalization of a received chunk in timestamped mode (source lines 440
and 451): collapse CRLF, then convert every remaining lone CR to newline. -/
def monNormalizeTs (chunk : List Char) : List Char := (replCRLF chunk).map crRepl

/-- Processing of one received chunk in timestamped monitor mode (source
lines 449-465): normalize the chunk, append it to the line buffer, and
extract complete lines. -/
def monProcessChunkTs (ts buf chunk : List Char) : List Msg × List Char :=
  monExtractTs ts [] (buf ++ monNormalizeTs chunk)

theorem monExtractTs_append (ts : List Char) :
    ∀ (l cur rest : List Char), '\n' ∉ l →
      monExtractTs ts cur (l ++ rest) = monExtractTs ts (cur ++ l) rest := by
  intro l
  induction l with
  | nil => intro cur rest _; simp
  | cons c cs ih =>
    intro cur rest h
    have hc : c ≠ '\n' := fun hh => h (hh ▸ List.mem_cons_self c cs)
    simp only [List.cons_append, monExtractTs, if_neg hc, List.append_eq]
    rw [ih (cur ++ [c]) rest (fun hm => h (List.mem_cons_of_mem c hm))]
    simp

/-- C7: in timestamped monitor mode, after collapsing CRLF and converting
lone carriage returns to newlines, line extraction satisfies: an empty line
immediately followed by end-of-buffer produces no message; an empty line
with more buffered content following posts a bare-newline message; a
non-empty line posts the timestamp marker, the line, and a newline; and for
the chunk `"abc\r\ndef\r"` arriving on an empty buffer exactly two messages
are posted, a stamped line for `abc` and a stamped line for `def`. -/
theorem c7_ts_extraction :
    (∀ ts : List Char, monExtractTs ts [] ['\n'] = ([], []))
    ∧ (∀ (ts rest : List Char), rest ≠ [] →
        monExtractTs ts [] ('\n' :: rest)
          = (("OUT", ['\n']) :: (monExtractTs ts [] rest).1,
             (monExtractTs ts [] rest).2))
    ∧ (∀ (ts line rest : List Char), '\n' ∉ line → line ≠ [] →
        monExtractTs ts [] (line ++ '\n' :: rest)
          = (("OUT", ts ++ line ++ ['\n']) :: (monExtractTs ts [] rest).1,
             (monExtractTs ts [] rest).2))
    ∧ (∀ t : PyDateTime,
        monProcessChunkTs (tsMark t) [] "abc\r\ndef\r".data
          = ([("OUT", tsMark t ++ "abc\n".data),
              ("OUT", tsMark t ++ "def\n".data)], [])) := by
  refine ⟨?_, ?_, ?_, ?_⟩
  · intro ts; rfl
  · intro ts rest h
    simp [monExtractTs, h]
  · intro ts line rest hnl hne
    have h := monExtractTs_append ts line [] ('\n' :: rest) hnl
    simp only [List.nil_append] at h
    rw [h]
    simp [monExtractTs, hne]
  · intro t
    have e1 : ([] : List Char) ++ monNormalizeTs "abc\r\ndef\r".data
        = ['a', 'b', 'c', '\n', 'd', 'e', 'f', '\n'] := by decide
    have e2 : "abc\n".data = ['a', 'b', 'c', '\n'] := by decide
    have e3 : "def\n".data = ['d', 'e', 'f', '\n'] := by decide
    unfold monProcessChunkTs
    rw [e1, e2, e3]
    simp [monExtractTs]

/-- Witness for the timestamped extraction theorem at concrete inputs: a
blank line followed by content posts a bare newline, and a one-character
line is posted with the marker and newline. -/
theorem c7_ts_extraction_witness :
    (monExtractTs ['T'] [] ('\n' :: ['x'])
        = (("OUT", ['\n']) :: (monExtractTs ['T'] [] ['x']).1,
           (monExtractTs ['T'] [] ['x']).2))
    ∧ (monExtractTs ['T'] [] (['x'] ++ '\n' :: [])
        = (("OUT", ['T'] ++ ['x'] ++ ['\n']) :: (monExtractTs ['T'] [] []).1,
           (monExtractTs ['T'] [] []).2)) :=
  ⟨c7_ts_extraction.2.1 ['T'] ['x'] (by decide),
   c7_ts_extraction.2.2.1 ['T'] ['x'] [] (by decide) (by decide)⟩

/-- A filesystem path, as its list of components. -/
abbrev FsPath := List String

/-- The modelled filesystem: the set of existing regular files. -/
abbrev Fs := List FsPath

/-- `Path.is_file` against the modelled filesystem. -/
def isFile (fs : Fs) (p : FsPath) : Bool := fs.contains p

/-- `find_flash_args` (source lines 25-39): check the candidates
`<dir>/flash_args` then `<dir>/build/flash_args`, in that order, and return
the first that is a regular file; `none` when neither exists. -/
def find_flash_args (fs : Fs) (base : FsPath) : Option FsPath :=
  if isFile fs (base ++ ["flash_args"]) then some (base ++ ["flash_args"])
  else if isFile fs (base ++ ["build", "flash_args"]) then
    some (base ++ ["build", "flash_args"])
  else none

/-- The message of the `FileNotFoundError` raised by
`_resolve_flash_args_and_cwd` (source lines 323-330). -/
def flashArgsErrMsg : String :=
  "flash_args not found.\n\nSelect either:\n - project root (contains build/flash_args), or\n - build folder (contains flash_args)\n\nAlso ensure you ran `idf.py build` inside the container."

/-- `EspFlashGUI._resolve_flash_args_and_cwd` (source lines 320-332): the
discovered argument file together with its parent directory as the working
directory, or the descriptive error. -/
def resolveFlashArgsAndCwd (fs : Fs) (base : FsPath) :
    Except String (FsPath × FsPath) :=
  match find_flash_args fs base with
  | some p => Except.ok (p, p.dropLast)
  | none => Except.error flashArgsErrMsg

/-- User-visible primitive effects of the controller code paths, in program
order. -/
inductive UAction
  | showError (title msg : String)
  | showWarning (title msg : String)
  | logText (s : String)
  | stopMonitorCall
  | disableUICall
  | setStatus (s : String)
  | spawnWorker (argv : List String) (cwd : FsPath)
deriving DecidableEq

/-- `EspFlashGUI._start_task` (source lines 301-318): refuse with a warning
when the worker thread is alive; otherwise stop the monitor first when it is
running, then disable the UI, set the status and spawn the worker thread. -/
def startTaskActions (workerAlive monRunning : Bool) (argv : List String)
    (cwd : FsPath) : List UAction :=
  if workerAlive then [UAction.showWarning "Busy" "Another operation is running."]
  else
    (if monRunning then
      [UAction.logText "\n[Stopping Serial Monitor to run esptool...]\n",
       UAction.stopMonitorCall]
     else [])
    ++ [UAction.disableUICall, UAction.setStatus "Working…",
        UAction.spawnWorker argv cwd]

/-- The argument vector built by `EspFlashGUI.flash` (source lines 349-352):
the file is referenced by its bare name behind the `@` marker. -/
def flashArgv (chip port : String) (baud : Option Nat) (fa : FsPath) : List String :=
  ["esptool", "--chip", chip, "--port", port]
    ++ (match baud with | some b => ["--baud", toString b] | none => [])
    ++ ["write-flash", "@" ++ (fa.getLast?.getD "")]

/-- `EspFlashGUI.flash` (source lines 334-356): abort with a dialog when no
port is selected or when the argument file cannot be resolved (in which case
no background task is spawned); otherwise log the banners and hand over to
`_start_task` with the resolved file's directory as working directory. -/
def flashActions (workerAlive monRunning : Bool) (fs : Fs) (base : FsPath)
    (port chip : String) (baud : Option Nat) : List UAction :=
  if port = "" then [UAction.showError "No Port" "Please select a COM port."]
  else
    match resolveFlashArgsAndCwd fs base with
    | Except.error e => [UAction.showError "Missing flash_args" e]
    | Except.ok pc =>
      [UAction.logText ("\n=== FLASH: " ++ port ++ " | chip=" ++ chip ++ " | baud="
          ++ (match baud with | some b => toString b | none => "default") ++ " ===\n"),
       UAction.logText ("Using: " ++ String.intercalate "/" pc.1 ++ "\n")]
        ++ startTaskActions workerAlive monRunning
            (flashArgv chip port baud pc.1) pc.2

/-- C6: argument-file discovery checks exactly `<dir>/flash_args` and then
`<dir>/build/flash_args`, in that order, returning the first existing
regular file, with the working directory the parent of the discovered file
(the selected directory itself, resp. its `build` subdirectory); when
neither exists, the flash action fails with a dialog whose message names
both checked locations, and no background task is spawned. -/
theorem c6_flash_args_discovery :
    (∀ (fs : Fs) (base : FsPath), isFile fs (base ++ ["flash_args"]) = true →
        resolveFlashArgsAndCwd fs base
          = Except.ok (base ++ ["flash_args"], base))
    ∧ (∀ (fs : Fs) (base : FsPath), isFile fs (base ++ ["flash_args"]) = false →
        isFile fs (base ++ ["build", "flash_args"]) = true →
        resolveFlashArgsAndCwd fs base
          = Except.ok (base ++ ["build", "flash_args"], base ++ ["build"]))
    ∧ (∀ (fs : Fs) (base : FsPath), isFile fs (base ++ ["flash_args"]) = false →
        isFile fs (base ++ ["build", "flash_args"]) = false →
        resolveFlashArgsAndCwd fs base = Except.error flashArgsErrMsg)
    ∧ List.IsInfix "flash_args".data flashArgsErrMsg.data
    ∧ List.IsInfix "build/flash_args".data flashArgsErrMsg.data
    ∧ (∀ (wa mr : Bool) (fs : Fs) (base : FsPath) (port chip : String)
          (baud : Option Nat), port ≠ "" → find_flash_args fs base = none →
        flashActions wa mr fs base port chip baud
          = [UAction.showError "Missing flash_args" flashArgsErrMsg]
          ∧ ∀ (argv : List String) (cwd : FsPath),
              UAction.spawnWorker argv cwd ∉ flashActions wa mr fs base port chip baud)
    ∧ (∀ (mr : Bool) (fs : Fs) (base : FsPath) (port chip : String)
          (baud : Option Nat) (p d : FsPath), port ≠ "" →
        resolveFlashArgsAndCwd fs base = Except.ok (p, d) →
        UAction.spawnWorker (flashArgv chip port baud p) d
          ∈ flashActions false mr fs base port chip baud) := by
  refine ⟨?_, ?_, ?_, ?_, ?_, ?_, ?_⟩
  · intro fs base h
    simp [resolveFlashArgsAndCwd, find_flash_args, h, List.dropLast_concat]
  · intro fs base h1 h2
    have he : base ++ ["build", "flash_args"] = (base ++ ["build"]) ++ ["flash_args"] := by
      simp
    simp only [resolveFlashArgsAndCwd, find_flash_args, h1, h2, Bool.false_eq_true,
      if_false, if_true]
    rw [he, List.dropLast_concat]
  · intro fs base h1 h2
    simp [resolveFlashArgsAndCwd, find_flash_args, h1, h2]
  · decide
  · decide
  · intro wa mr fs base port chip baud hp hf
    have he : resolveFlashArgsAndCwd fs base = Except.error flashArgsErrMsg := by
      simp [resolveFlashArgsAndCwd, hf]
    constructor
    · simp [flashActions, hp, he]
    · intro argv cwd
      simp [flashActions, hp, he]
  · intro mr fs base port chip baud p d hp hr
    simp [flashActions, hp, hr, startTaskActions]

/-- Witness for the discovery theorem at concrete filesystems: a build
folder selected directly, a project root with `build/flash_args`, and a
directory with neither candidate. -/
theorem c6_flash_args_discovery_witness :
    (resolveFlashArgsAndCwd [["b", "flash_args"]] ["b"]
        = Except.ok (["b", "flash_args"], ["b"]))
    ∧ (resolveFlashArgsAndCwd [["p", "build", "flash_args"]] ["p"]
        = Except.ok (["p", "build", "flash_args"], ["p", "build"]))
    ∧ (resolveFlashArgsAndCwd [["x", "other"]] ["x"] = Except.error flashArgsErrMsg)
    ∧ (flashActions false false [["x", "other"]] ["x"] "COM3" "esp32" (some 460800)
        = [UAction.showError "Missing flash_args" flashArgsErrMsg]) :=
  ⟨c6_flash_args_discovery.1 [["b", "flash_args"]] ["b"] (by decide),
   c6_flash_args_discovery.2.1 [["p", "build", "flash_args"]] ["p"] (by decide) (by decide),
   c6_flash_args_discovery.2.2.1 [["x", "other"]] ["x"] (by decide) (by decide),
   (c6_flash_args_discovery.2.2.2.2.2.1 false false [["x", "other"]] ["x"] "COM3"
      "esp32" (some 460800) (by decide) (by decide)).1⟩

/-- The controller state of `EspFlashGUI`: the session flags together with
the liveness of the two background threads and the lifecycle markers not yet
drained from the queue.  `portSelected` models a non-empty
`_selected_port()`; `workerAlive` is `self.worker.is_alive()`; `monRunning`
is `self.mon_running`; `monThreadAlive` is `self.mon_thread.is_alive()`;
`monSerOpen` records that the reader's serial handle is open; `stopEvtSet`
is `self.mon_stop_evt`; `selectorsEnabled` is the shared state of the
port/chip/baud combo boxes (readonly versus disabled); `buttonsEnabled` the
shared state of the flash/erase/read-mac buttons; `donePending` and
`monDonePending` record a `DONE` resp. `MON_DONE` message sitting in
`log_q`, posted by an exiting thread and not yet drained by `_poll_logs`. -/
structure GuiState where
  portSelected : Bool
  workerAlive : Bool
  monRunning : Bool
  monThreadAlive : Bool
  monSerOpen : Bool
  stopEvtSet : Bool
  selectorsEnabled : Bool
  buttonsEnabled : Bool
  donePending : Bool
  monDonePending : Bool
deriving DecidableEq

/-- Atomic occurrences interleaved by the Tk event loop: a click on the
monitor toggle, a click on flash/erase/read-mac (reaching `_start_task`),
the worker thread finishing (posting `DONE`), the monitor reader thread
finishing for any reason — stop request, read error or open failure —
(posting `MON_DONE`), and one `_poll_logs` tick draining the queue. -/
inductive GEvent
  | toggleMonitor
  | startTask
  | workerExit
  | monThreadExit
  | pollDrain
deriving DecidableEq

/-- `EspFlashGUI.stop_monitor` (source lines 512-531): set the stop event,
close the serial handle if open, clear `mon_running`, and re-enable the
selectors and the flash-family buttons immediately. -/
def stopMonitorStep (s : GuiState) : GuiState :=
  { s with stopEvtSet := true, monSerOpen := false, monRunning := false,
           selectorsEnabled := true, buttonsEnabled := true }

/-- `EspFlashGUI.start_monitor` (source lines 400-510): rejected when no
port is selected, when the worker thread is alive, or when the previous
reader thread is still alive — in each case with no state change; otherwise
clear the stop event, spawn the reader (which opens the serial device), set
`mon_running` and disable the selectors and flash-family buttons. -/
def startMonitorStep (s : GuiState) : GuiState :=
  if s.portSelected = false then s
  else if s.workerAlive then s
  else if s.monThreadAlive then s
  else { s with stopEvtSet := false, monThreadAlive := true, monSerOpen := true,
                monRunning := true, selectorsEnabled := false, buttonsEnabled := false }

/-- `EspFlashGUI.toggle_monitor` (source lines 389-393). -/
def toggleMonitorStep (s : GuiState) : GuiState :=
  if s.monRunning then stopMonitorStep s else startMonitorStep s

/-- `EspFlashGUI._start_task` (source lines 301-318): refused while the
worker thread is alive; otherwise `stop_monitor` is called first when
`mon_running` is set, then the UI is disabled and the worker spawned. -/
def startTaskStep (s : GuiState) : GuiState :=
  if s.workerAlive then s
  else
    let s1 := if s.monRunning then stopMonitorStep s else s
    { s1 with selectorsEnabled := false, buttonsEnabled := false, workerAlive := true }

/-- The worker thread finishing: `run_esptool_in_process` posts `DONE` in
its `finally` block (source line 138) and the thread dies. -/
def workerExitStep (s : GuiState) : GuiState :=
  if s.workerAlive then { s with workerAlive := false, donePending := true } else s

/-- The monitor reader thread finishing (stop request observed, read error,
or open failure): its `finally` block closes the serial handle and posts the
stop banner and `MON_DONE` (source lines 477-493), then the thread dies. -/
def monThreadExitStep (s : GuiState) : GuiState :=
  if s.monThreadAlive then
    { s with monThreadAlive := false, monSerOpen := false, monDonePending := true }
  else s

/-- One `_poll_logs` tick (source lines 535-591): a drained `DONE` calls
`_disable_ui(False)` — buttons normal, selectors readonly unless
`mon_running` — and re-disables everything when `mon_running` is set; a
drained `MON_DONE` clears `mon_running` and re-enables the selectors and
buttons.  `DONE` is handled before `MON_DONE`, as in the source. -/
def pollDrainStep (s : GuiState) : GuiState :=
  let s1 :=
    if s.donePending then
      let s' := { s with donePending := false, buttonsEnabled := true,
                         selectorsEnabled := !s.monRunning }
      if s.monRunning then { s' with buttonsEnabled := false, selectorsEnabled := false }
      else s'
    else s
  if s1.monDonePending then
    { s1 with monDonePending := false, monRunning := false,
              selectorsEnabled := true, buttonsEnabled := true }
  else s1

/-- One atomic event of the controller. -/
def guiStep (s : GuiState) : GEvent → GuiState
  | GEvent.toggleMonitor => toggleMonitorStep s
  | GEvent.startTask => startTaskStep s
  | GEvent.workerExit => workerExitStep s
  | GEvent.monThreadExit => monThreadExitStep s
  | GEvent.pollDrain => pollDrainStep s

/-- A run of the controller from a state through a list of events. -/
def guiRun (s : GuiState) (evs : List GEvent) : GuiState := evs.foldl guiStep s

/-- The initial controller state (source lines 148-167), with a port
selected by `refresh_ports`. -/
def guiInit : GuiState :=
  { portSelected := true, workerAlive := false, monRunning := false,
    monThreadAlive := false, monSerOpen := false, stopEvtSet := false,
    selectorsEnabled := true, buttonsEnabled := true, donePending := false,
    monDonePending := false }

/-- C1: the claimed invariant — in every reachable state at most one of the
tool runner and the monitor reader holds the serial device — fails on the
code.  After a monitor session dies on a read error (its `MON_DONE` still
queued), a stop click, a restart click, and a poll tick that drains the
stale `MON_DONE` (clearing `mon_running` while the new reader streams), a
flash click finds `mon_running` false, skips `stop_monitor`, and spawns the
worker while the reader thread is alive with the serial device open. -/
theorem c1_exclusion_violated :
    ((guiRun guiInit [GEvent.toggleMonitor, GEvent.monThreadExit, GEvent.toggleMonitor,
        GEvent.toggleMonitor, GEvent.pollDrain, GEvent.startTask]).workerAlive = true)
    ∧ ((guiRun guiInit [GEvent.toggleMonitor, GEvent.monThreadExit, GEvent.toggleMonitor,
        GEvent.toggleMonitor, GEvent.pollDrain, GEvent.startTask]).monThreadAlive = true)
    ∧ ((guiRun guiInit [GEvent.toggleMonitor, GEvent.monThreadExit, GEvent.toggleMonitor,
        GEvent.toggleMonitor, GEvent.pollDrain, GEvent.startTask]).monSerOpen = true) := by
  decide

/-- C4 counterexample: the claim that the selectors and flash-family buttons
re-enable only once `MON_DONE` has been drained — and not merely upon the
user's stop request — is false: after a start click and a stop click the
buttons are enabled while the reader thread is still alive and `MON_DONE`
has not been drained. -/
theorem c4_counterexample :
    ¬ (∀ evs : List GEvent, (guiRun guiInit evs).buttonsEnabled = true →
        (guiRun guiInit evs).monThreadAlive = false) := by
  intro h
  have h2 := h [GEvent.toggleMonitor, GEvent.toggleMonitor]
  revert h2
  decide

theorem guiStep_mon_disables :
    ∀ (s : GuiState) (e : GEvent),
      (s.monRunning = true → s.selectorsEnabled = false ∧ s.buttonsEnabled = false) →
      ((guiStep s e).monRunning = true →
        (guiStep s e).selectorsEnabled = false ∧ (guiStep s e).buttonsEnabled = false) := by
  intro s e h
  cases e
  case toggleMonitor =>
    cases hm : s.monRunning
    · simp only [guiStep, toggleMonitorStep, hm, Bool.false_eq_true, if_false]
      unfold startMonitorStep
      split
      · exact h
      · split
        · exact h
        · split
          · exact h
          · intro _; exact ⟨rfl, rfl⟩
    · simp [guiStep, toggleMonitorStep, hm, stopMonitorStep]
  case startTask =>
    cases hw : s.workerAlive
    · cases hm : s.monRunning <;>
        simp [guiStep, startTaskStep, hw, hm, stopMonitorStep]
    · simpa [guiStep, startTaskStep, hw] using h
  case workerExit =>
    cases hw : s.workerAlive <;> simpa [guiStep, workerExitStep, hw] using h
  case monThreadExit =>
    cases ht : s.monThreadAlive <;> simpa [guiStep, monThreadExitStep, ht] using h
  case pollDrain =>
    cases hd : s.donePending <;> cases hm : s.monRunning <;>
      cases hmd : s.monDonePending <;> simp_all [guiStep, pollDrainStep]

theorem guiRun_mon_disables :
    ∀ (evs : List GEvent) (s : GuiState),
      (s.monRunning = true → s.selectorsEnabled = false ∧ s.buttonsEnabled = false) →
      ((guiRun s evs).monRunning = true →
        (guiRun s evs).selectorsEnabled = false ∧ (guiRun s evs).buttonsEnabled = false) := by
  intro evs
  induction evs with
  | nil => intro s h; exact h
  | cons e rest ih =>
    intro s h
    exact ih (guiStep s e) (guiStep_mon_disables s e h)

/-- C4 amended: while the monitor is running the port/chip/baud selectors
and the flash-family buttons are disabled; they are re-enabled immediately
by the user's stop request (`stop_monitor`), and also — covering the path
where the monitor stops by itself on a read error — when `MON_DONE` is
drained from the queue. -/
theorem c4_amended_enablement :
    (∀ evs : List GEvent, (guiRun guiInit evs).monRunning = true →
        (guiRun guiInit evs).selectorsEnabled = false
          ∧ (guiRun guiInit evs).buttonsEnabled = false)
    ∧ (∀ s : GuiState, s.monRunning = true →
        (guiStep s GEvent.toggleMonitor).buttonsEnabled = true
          ∧ (guiStep s GEvent.toggleMonitor).selectorsEnabled = true
          ∧ (guiStep s GEvent.toggleMonitor).monRunning = false)
    ∧ (∀ s : GuiState, s.monDonePending = true →
        (guiStep s GEvent.pollDrain).buttonsEnabled = true
          ∧ (guiStep s GEvent.pollDrain).selectorsEnabled = true
          ∧ (guiStep s GEvent.pollDrain).monRunning = false) := by
  refine ⟨?_, ?_, ?_⟩
  · intro evs
    exact guiRun_mon_disables evs guiInit (by decide)
  · intro s h
    simp [guiStep, toggleMonitorStep, h, stopMonitorStep]
  · intro s h
    cases hd : s.donePending <;> cases hm : s.monRunning <;>
      simp [guiStep, pollDrainStep, hd, hm, h]

/-- Witness for the amended enablement theorem at concrete states: after a
start click the monitor is running and everything is disabled; a stop click
re-enables; a drain of a pending `MON_DONE` re-enables. -/
theorem c4_amended_enablement_witness :
    ((guiRun guiInit [GEvent.toggleMonitor]).selectorsEnabled = false
      ∧ (guiRun guiInit [GEvent.toggleMonitor]).buttonsEnabled = false)
    ∧ ((guiStep (guiRun guiInit [GEvent.toggleMonitor]) GEvent.toggleMonitor).buttonsEnabled
        = true)
    ∧ ((guiStep (guiRun guiInit [GEvent.toggleMonitor, GEvent.monThreadExit])
        GEvent.pollDrain).buttonsEnabled = true) :=
  ⟨c4_amended_enablement.1 [GEvent.toggleMonitor] (by decide),
   (c4_amended_enablement.2.1 (guiRun guiInit [GEvent.toggleMonitor]) (by decide)).1,
   (c4_amended_enablement.2.2 (guiRun guiInit [GEvent.toggleMonitor, GEvent.monThreadExit])
      (by decide)).1⟩

/-- The messages the reader thread posts in its `finally` block (source
lines 477-493): the timestamped-mode flush of a non-empty line buffer, then
the stop banner, then `MON_DONE`. -/
def monitorFinallyMsgs (tsMode : Bool) (ts buf : List Char) : List Msg :=
  (if tsMode = true ∧ buf ≠ [] then [("OUT", ts ++ buf)] else [])
    ++ [("OUT", "\n=== SERIAL MONITOR STOPPED ===\n".data), ("MON_DONE", [])]

/-- The queue messages of one tool-runner run. -/
def toolRunMsgs (argv : List String) (cwd : String) (ps : ProcState)
    (r : ToolRun) : List Msg :=
  (runEsptoolInProcess argv cwd ps r).2.1

/-- An interleaving of two lists that preserves the relative order of each:
the possible contents of the queue when two threads enqueue concurrently
with no synchronization between them. -/
inductive Interleave {α : Type} : List α → List α → List α → Prop
  | nil : Interleave [] [] []
  | left {x : α} {xs ys zs : List α} :
      Interleave xs ys zs → Interleave (x :: xs) ys (x :: zs)
  | right {y : α} {xs ys zs : List α} :
      Interleave xs ys zs → Interleave xs (y :: ys) (y :: zs)

theorem interleave_sublist_left {α : Type} {xs ys zs : List α}
    (h : Interleave xs ys zs) : List.Sublist xs zs := by
  induction h with
  | nil => exact List.Sublist.slnil
  | left _ ih => exact List.Sublist.cons₂ _ ih
  | right _ ih => exact List.Sublist.cons _ ih

theorem interleave_sublist_right {α : Type} {xs ys zs : List α}
    (h : Interleave xs ys zs) : List.Sublist ys zs := by
  induction h with
  | nil => exact List.Sublist.slnil
  | left _ ih => exact List.Sublist.cons _ ih
  | right _ ih => exact List.Sublist.cons₂ _ ih

/-- A concrete tool run that prints one line and exits cleanly. -/
def c5toolMsgs : List Msg :=
  toolRunMsgs ["esptool"] "/" ⟨["gui"], "/home"⟩
    ⟨[Wev.out "x\n".data], ToolOutcome.sysExit none⟩

/-- A possible queue content after `_start_task` preempts a streaming
monitor: the worker's messages are all enqueued before the still-running
reader thread posts its stop banner and `MON_DONE`. -/
def c5queue : List Msg := c5toolMsgs ++ monitorFinallyMsgs false [] []

/-- C5 counterexample: the claim that the monitor's stop-banner and
`MON_DONE` messages appear in the queue before any message of the tool
runner is false — `_start_task` spawns the worker without joining the
reader thread, so the queue content in which every tool message precedes
the monitor's final messages is a possible interleaving; in it `DONE`
appears strictly before `MON_DONE`. -/
theorem c5_counterexample :
    Interleave (monitorFinallyMsgs false [] []) c5toolMsgs c5queue
      ∧ c5queue.indexOf ("DONE", ([] : List Char))
          < c5queue.indexOf ("MON_DONE", ([] : List Char)) := by
  constructor
  · have e1 : monitorFinallyMsgs false [] []
        = [("OUT", "\n=== SERIAL MONITOR STOPPED ===\n".data), ("MON_DONE", [])] := by
      decide
    have e2 : c5toolMsgs = [("OUT", "x\n".data), ("DONE", [])] := by decide
    have e3 : c5queue = [("OUT", "x\n".data), ("DONE", []),
        ("OUT", "\n=== SERIAL MONITOR STOPPED ===\n".data), ("MON_DONE", [])] := by
      decide
    rw [e1, e2, e3]
    exact Interleave.right (Interleave.right (Interleave.left
      (Interleave.left Interleave.nil)))
  · decide

/-- C5 amended: the monitor thread posts its final messages in order and the
tool runner posts its messages in order, and the stop of the monitor is
requested before the worker is spawned (`stop_monitor` precedes the spawn in
`_start_task`'s action sequence), but the queue interleaves the two
sequences arbitrarily: each thread's sequence is merely a sublist of the
queue content, and the tool's messages may precede the monitor's
`MON_DONE`. -/
theorem c5_amended_interleaving :
    (∀ (tsMode : Bool) (ts buf : List Char) (argv : List String) (cwd : String)
        (ps : ProcState) (r : ToolRun) (zs : List Msg),
        Interleave (monitorFinallyMsgs tsMode ts buf) (toolRunMsgs argv cwd ps r) zs →
        List.Sublist (monitorFinallyMsgs tsMode ts buf) zs
          ∧ List.Sublist (toolRunMsgs argv cwd ps r) zs)
    ∧ (∀ (argv : List String) (cwd : FsPath),
        List.Sublist [UAction.stopMonitorCall, UAction.spawnWorker argv cwd]
          (startTaskActions false true argv cwd)) := by
  constructor
  · intro tsMode ts buf argv cwd ps r zs h
    exact ⟨interleave_sublist_left h, interleave_sublist_right h⟩
  · intro argv cwd
    show List.Sublist [UAction.stopMonitorCall, UAction.spawnWorker argv cwd]
      [UAction.logText "\n[Stopping Serial Monitor to run esptool...]\n",
       UAction.stopMonitorCall, UAction.disableUICall, UAction.setStatus "Working…",
       UAction.spawnWorker argv cwd]
    exact List.Sublist.cons _ (List.Sublist.cons₂ _ (List.Sublist.cons _
      (List.Sublist.cons _ (List.Sublist.cons₂ _ List.Sublist.slnil))))

/-- Witness for the amended interleaving theorem at a concrete interleaving:
both threads' sequences are sublists of the concrete queue content. -/
theorem c5_amended_interleaving_witness :
    List.Sublist (monitorFinallyMsgs false [] []) c5queue
      ∧ List.Sublist c5toolMsgs c5queue := by
  refine c5_amended_interleaving.1 false [] [] ["esptool"] "/" ⟨["gui"], "/home"⟩
    ⟨[Wev.out "x\n".data], ToolOutcome.sysExit none⟩ c5queue ?_
  have e1 : monitorFinallyMsgs false [] []
      = [("OUT", "\n=== SERIAL MONITOR STOPPED ===\n".data), ("MON_DONE", [])] := by
    decide
  have e2 : toolRunMsgs ["esptool"] "/" ⟨["gui"], "/home"⟩
      ⟨[Wev.out "x\n".data], ToolOutcome.sysExit none⟩
      = [("OUT", "x\n".data), ("DONE", [])] := by decide
  have e3 : c5queue = [("OUT", "x\n".data), ("DONE", []),
      ("OUT", "\n=== SERIAL MONITOR STOPPED ===\n".data), ("MON_DONE", [])] := by
    decide
  rw [e1, e2, e3]
  exact Interleave.right (Interleave.right (Interleave.left
    (Interleave.left Interleave.nil)))

/-- ASCII whitespace accepted by Python around an `int()` literal and
stripped by `str.strip()`. -/
def isPySpace (c : Char) : Bool :=
  c == ' ' || c == '\t' || c == '\n' || c == '\r' || c == '\x0b' || c == '\x0c'

/-- Python `str.strip()` over ASCII whitespace. -/
def stripChars (l : List Char) : List Char :=
  ((l.dropWhile (fun c => isPySpace c)).reverse.dropWhile (fun c => isPySpace c)).reverse

/-- The digit part of a Python `int()` literal after its first digit: digits
in which a single underscore may separate two digits. -/
def pyDigitsCore : List Char → Nat → Option Nat
  | [], acc => some acc
  | '_' :: c :: rest, acc =>
    if c.isDigit then pyDigitsCore rest (acc * 10 + (c.toNat - 48)) else none
  | c :: rest, acc =>
    if c.isDigit then pyDigitsCore rest (acc * 10 + (c.toNat - 48)) else none

/-- The digit part of a Python `int()` literal: nonempty, starting with a
digit. -/
def pyDigitsStart : List Char → Option Nat
  | [] => none
  | c :: rest => if c.isDigit then pyDigitsCore rest (c.toNat - 48) else none

/-- Python `int(s)`: optional surrounding whitespace, an optional sign, then
digits with underscore separators; `none` models the `ValueError`. -/
def pyIntOfChars (l : List Char) : Option Int :=
  match stripChars l with
  | '+' :: rest => (pyDigitsStart rest).map (fun n => (n : Int))
  | '-' :: rest => (pyDigitsStart rest).map (fun n => -(n : Int))
  | rest => (pyDigitsStart rest).map (fun n => (n : Int))

/-- One entry of `serial.tools.list_ports.comports()`, restricted to the
fields the source reads. -/
structure PortInfo where
  device : String
  description : String
  hwid : String
deriving DecidableEq

/-- The display label built by `list_serial_ports` (source lines 46-51):
device, dash, stripped description, and the stripped hwid in parentheses
when it contains `VID:PID`. -/
def portDisplay (p : PortInfo) : String :=
  let desc := String.mk (stripChars p.description.data)
  let hw := String.mk (stripChars p.hwid.data)
  let base := p.device ++ " — " ++ desc
  if List.IsInfix "VID:PID".data hw.data then base ++ " (" ++ hw ++ ")" else base

/-- The pre-sort list of `(display, device)` tuples (source lines 44-51). -/
def portTuples (l : List PortInfo) : List (String × String) :=
  l.map (fun p => (portDisplay p, p.device))

/-- `com_sort_key` (source lines 53-60): the integer suffix of an upper-cased
COM-prefixed device identifier, and 9999 when the identifier has another
prefix or the suffix does not parse as an integer. -/
def comSortKey (item : String × String) : Int :=
  let dev := item.2.data.map Char.toUpper
  if dev.take 3 = "COM".data then
    match pyIntOfChars (dev.drop 3) with
    | some n => n
    | none => 9999
  else 9999

/-- Stable insertion of an element into a key-sorted list: the element is
placed after every element whose key is less than or equal to its own. -/
def insKey {α : Type} (key : α → Int) (x : α) : List α → List α
  | [] => [x]
  | y :: ys => if key y ≤ key x then y :: insKey key x ys else x :: y :: ys

/-- Python's stable `list.sort(key=...)` (source line 62), as a stable
insertion sort consuming the list left to right. -/
def pySortByKey {α : Type} (key : α → Int) (l : List α) : List α :=
  l.foldl (fun acc x => insKey key x acc) []

/-- `list_serial_ports` (source lines 42-63). -/
def list_serial_ports (l : List PortInfo) : List (String × String) :=
  pySortByKey comSortKey (portTuples l)

/-- A device identifier following the platform prefix convention of the
spec: a COM prefix (case-insensitively) with an integer suffix. -/
def matchesConv (dev : String) : Bool :=
  let d := dev.data.map Char.toUpper
  if d.take 3 = "COM".data then (pyIntOfChars (d.drop 3)).isSome else false

/-- The shape asserted by the claim: once an identifier that does not follow
the convention appears, no identifier following the convention appears. -/
def nonMatchingLast (devs : List String) : Bool :=
  (devs.dropWhile (fun d => matchesConv d)).all (fun d => !matchesConv d)

theorem mem_insKey {α : Type} (key : α → Int) (x : α) :
    ∀ (l : List α) (a : α), a ∈ insKey key x l ↔ a = x ∨ a ∈ l := by
  intro l
  induction l with
  | nil => intro a; simp [insKey]
  | cons y ys ih =>
    intro a
    by_cases h : key y ≤ key x
    · rw [show insKey key x (y :: ys) = y :: insKey key x ys by simp [insKey, h]]
      simp only [List.mem_cons, ih]
      tauto
    · rw [show insKey key x (y :: ys) = x :: y :: ys by simp [insKey, h]]
      simp [List.mem_cons]

theorem sorted_insKey {α : Type} (key : α → Int) (x : α) :
    ∀ (l : List α), List.Pairwise (fun a b => key a ≤ key b) l →
      List.Pairwise (fun a b => key a ≤ key b) (insKey key x l) := by
  intro l
  induction l with
  | nil => intro _; simp [insKey]
  | cons y ys ih =>
    intro hp
    rcases List.pairwise_cons.mp hp with ⟨hy, hys⟩
    by_cases h : key y ≤ key x
    · rw [show insKey key x (y :: ys) = y :: insKey key x ys by simp [insKey, h]]
      refine List.pairwise_cons.mpr ⟨?_, ih hys⟩
      intro a ha
      rcases (mem_insKey key x ys a).mp ha with h1 | h1
      · rw [h1]; exact h
      · exact hy a h1
    · rw [show insKey key x (y :: ys) = x :: y :: ys by simp [insKey, h]]
      have hx : key x ≤ key y := le_of_not_le h
      refine List.pairwise_cons.mpr ⟨?_, hp⟩
      intro a ha
      rcases List.mem_cons.mp ha with h1 | h1
      · rw [h1]; exact hx
      · exact le_trans hx (hy a h1)

theorem filter_insKey {α : Type} (key : α → Int) (x : α) (c : Int) :
    ∀ (l : List α), List.Pairwise (fun a b => key a ≤ key b) l →
      (insKey key x l).filter (fun a => key a == c)
        = l.filter (fun a => key a == c)
          ++ (if (key x == c) = true then [x] else []) := by
  intro l
  induction l with
  | nil =>
    intro _
    by_cases h : (key x == c) = true <;> simp [insKey, h]
  | cons y ys ih =>
    intro hp
    rcases List.pairwise_cons.mp hp with ⟨hy, hys⟩
    by_cases h : key y ≤ key x
    · rw [show insKey key x (y :: ys) = y :: insKey key x ys by simp [insKey, h]]
      simp only [List.filter_cons]
      rw [ih hys]
      by_cases hyc : (key y == c) = true <;> simp [hyc]
    · rw [show insKey key x (y :: ys) = x :: y :: ys by simp [insKey, h]]
      have hx : key x < key y := lt_of_not_le h
      by_cases hxc : (key x == c) = true
      · have hc : key x = c := by simpa using hxc
        have hnil : List.filter (fun a => key a == c) (y :: ys) = [] := by
          rw [List.filter_eq_nil_iff]
          intro a ha
          have hya : key y ≤ key a := by
            rcases List.mem_cons.mp ha with h1 | h1
            · rw [h1]
            · exact hy a h1
          have hlt : c < key a := lt_of_lt_of_le (hc ▸ hx) hya
          simp only [beq_iff_eq]
          omega
        have hstep : List.filter (fun a => key a == c) (x :: y :: ys)
            = x :: List.filter (fun a => key a == c) (y :: ys) := by
          rw [List.filter_cons]
          simp [hxc]
        rw [hstep, hnil]
        simp [hxc]
      · have hstep : List.filter (fun a => key a == c) (x :: y :: ys)
            = List.filter (fun a => key a == c) (y :: ys) := by
          rw [List.filter_cons]
          simp [hxc]
        rw [hstep]
        simp [hxc]

theorem mem_pySortFold {α : Type} (key : α → Int) :
    ∀ (l acc : List α) (a : α),
      a ∈ l.foldl (fun acc x => insKey key x acc) acc ↔ a ∈ acc ∨ a ∈ l := by
  intro l
  induction l with
  | nil => intro acc a; simp
  | cons x xs ih =>
    intro acc a
    rw [List.foldl_cons, ih]
    rw [mem_insKey key x acc a]
    simp only [List.mem_cons]
    tauto

theorem pySortFold_sorted_stable {α : Type} (key : α → Int) (c : Int) :
    ∀ (l acc : List α), List.Pairwise (fun a b => key a ≤ key b) acc →
      List.Pairwise (fun a b => key a ≤ key b)
          (l.foldl (fun acc x => insKey key x acc) acc)
        ∧ (l.foldl (fun acc x => insKey key x acc) acc).filter (fun a => key a == c)
            = acc.filter (fun a => key a == c) ++ l.filter (fun a => key a == c) := by
  intro l
  induction l with
  | nil => intro acc h; simp [h]
  | cons x xs ih =>
    intro acc h
    have hs := sorted_insKey key x acc h
    rcases ih (insKey key x acc) hs with ⟨h1, h2⟩
    rw [List.foldl_cons]
    refine ⟨h1, ?_⟩
    rw [h2, filter_insKey key x c acc h]
    by_cases hxc : (key x == c) = true
    · have hstep : List.filter (fun a => key a == c) (x :: xs)
          = x :: List.filter (fun a => key a == c) xs := by
        rw [List.filter_cons]
        simp [hxc]
      rw [hstep]
      simp [hxc]
    · have hstep : List.filter (fun a => key a == c) (x :: xs)
          = List.filter (fun a => key a == c) xs := by
        rw [List.filter_cons]
        simp [hxc]
      rw [hstep]
      simp [hxc]

theorem comSortKey_not_matches (p : String × String)
    (h : matchesConv p.2 = false) : comSortKey p = 9999 := by
  unfold comSortKey
  unfold matchesConv at h
  by_cases h1 : (p.2.data.map Char.toUpper).take 3 = "COM".data
  · simp only [h1, if_true] at h ⊢
    cases hp : pyIntOfChars ((p.2.data.map Char.toUpper).drop 3) with
    | none => simp
    | some n => rw [hp] at h; simp at h
  · simp [h1]

/-- The sort example of the spec: four enumerated ports. -/
def c10example : List PortInfo :=
  [⟨"COM10", "", ""⟩, ⟨"COM2", "", ""⟩, ⟨"COM1", "", ""⟩, ⟨"ttyUSB0", "", ""⟩]

/-- Two enumerated ports: a COM port whose numeric suffix exceeds the 9999
sentinel, and an identifier not following the convention. -/
def c10ports : List PortInfo :=
  [⟨"COM10000", "", ""⟩, ⟨"ttyUSB0", "", ""⟩]

/-- C10 counterexample: the claim that identifiers not matching the platform
prefix convention sort last is false — `com_sort_key` maps them to the
sentinel 9999, so `ttyUSB0` (key 9999) sorts before `COM10000` (key 10000)
and a convention-matching identifier ends up last. -/
theorem c10_counterexample :
    (list_serial_ports c10ports).map Prod.snd = ["ttyUSB0", "COM10000"]
      ∧ nonMatchingLast ((list_serial_ports c10ports).map Prod.snd) = false := by
  constructor
  · decide
  · decide

/-- C10 amended: `list_serial_ports` stably sorts the `(display, device)`
tuples ascending by `com_sort_key` — the integer suffix of a COM-prefixed
identifier, and the sentinel 9999 for every other identifier: the output is
ascending by key; for every key value the tuples carrying it keep their
original relative order (so identifiers not matching the convention stay in
input order among themselves); when every matching identifier has key below
9999, every identifier following the convention precedes every identifier
that does not; and the example `["COM10", "COM2", "COM1", "ttyUSB0"]` sorts
to `["COM1", "COM2", "COM10", "ttyUSB0"]`. -/
theorem c10_amended_sort :
    (∀ l : List PortInfo,
        List.Pairwise (fun a b => comSortKey a ≤ comSortKey b) (list_serial_ports l))
    ∧ (∀ (l : List PortInfo) (c : Int),
        (list_serial_ports l).filter (fun a => comSortKey a == c)
          = (portTuples l).filter (fun a => comSortKey a == c))
    ∧ (∀ l : List PortInfo,
        (∀ p ∈ portTuples l, matchesConv p.2 = true → comSortKey p < 9999) →
        List.Pairwise (fun a b => matchesConv b.2 = true → matchesConv a.2 = true)
          (list_serial_ports l))
    ∧ ((list_serial_ports c10example).map Prod.snd
        = ["COM1", "COM2", "COM10", "ttyUSB0"]) := by
  refine ⟨?_, ?_, ?_, ?_⟩
  · intro l
    exact (pySortFold_sorted_stable comSortKey 0 (portTuples l) [] (by simp)).1
  · intro l c
    have h := (pySortFold_sorted_stable comSortKey c (portTuples l) [] (by simp)).2
    simpa [list_serial_ports, pySortByKey] using h
  · intro l hsuffix
    have hp : List.Pairwise (fun a b => comSortKey a ≤ comSortKey b)
        (list_serial_ports l) :=
      (pySortFold_sorted_stable comSortKey 0 (portTuples l) [] (by simp)).1
    refine hp.imp_of_mem ?_
    intro a b ha hb hab hmb
    by_contra hma
    have hka : comSortKey a = 9999 :=
      comSortKey_not_matches a (by simpa using hma)
    have hbmem : b ∈ portTuples l := by
      have := (mem_pySortFold comSortKey (portTuples l) [] b).mp hb
      simpa using this
    have hkb : comSortKey b < 9999 := hsuffix b hbmem hmb
    omega
  · decide

/-- Witness for the amended sort theorem at the example input, every COM
suffix being below the sentinel: matching identifiers precede non-matching
ones. -/
theorem c10_amended_sort_witness :
    List.Pairwise (fun a b => matchesConv b.2 = true → matchesConv a.2 = true)
      (list_serial_ports c10example) :=
  c10_amended_sort.2.2.1 c10example (by decide)
